import Mathlib

/-!
# Verification of the command-proxy core (bounded log store and command runner)

Shallow embedding of the repository's core components:

* `CircularBuffer` (src/utils/buffer.ts): a fixed-capacity circular buffer with
  `head`/`tail`/`size` indices.  The JS backing array `new Array<T>(capacity)`
  starts with uninitialized holes, so the model stores `Option T` per slot
  (`none` = hole); `getAll` therefore returns `List (Option T)`.
* `CommandRunner` (src/utils/command-runner.ts): the process life-cycle state
  machine.  All I/O effects (pty spawn/write/kill results, `Date.now()`
  timestamps, event emission) are made explicit: results of external calls are
  passed in as `Except` arguments, emitted events are accumulated in an
  `events` list, pty `write`/`kill` invocations are recorded in
  `ptyWrites`/`kills`.
* the `sendKeyPress` tool's key-name mapping (src/index.ts).
* command-string parsing (`options.command.split(' ')`), modelled on `List Char`.
-/

namespace CommandProxy

/-- Embedding of `CircularBuffer<T>` (src/utils/buffer.ts).  The JS backing
array is modelled as a total map from indices to `Option T`; slots never
written hold `none` (JS: `undefined` holes of `new Array<T>(capacity)`). -/
structure CircularBuffer (T : Type) where
  buffer : Nat → Option T
  head : Nat
  tail : Nat
  size : Nat
  capacity : Nat

namespace CircularBuffer

variable {T : Type}

/-- The state produced by `constructor(capacity)` for a nonnegative capacity:
`head = tail = size = 0`, all array slots are holes. -/
def empty (capacity : Nat) : CircularBuffer T :=
  { buffer := fun _ => none, head := 0, tail := 0, size := 0, capacity := capacity }

/-- `new CircularBuffer<T>(capacity)` over a JS `number` capacity: the
constructor body itself performs no validation; `new Array<T>(capacity)`
throws a `RangeError` exactly when `capacity` is not a valid array length
(here: negative), and otherwise yields the empty buffer. -/
def create (capacity : Int) : Except String (CircularBuffer T) :=
  if capacity < 0 then .error "RangeError: Invalid array length"
  else .ok (empty capacity.toNat)

/-- `push(item)`: write at `head`, advance `head` modulo capacity; grow `size`
if not full, otherwise advance `tail` (evicting the oldest item). -/
def push (b : CircularBuffer T) (item : T) : CircularBuffer T :=
  let buffer := fun i => if i = b.head then some item else b.buffer i
  let head := (b.head + 1) % b.capacity
  if b.size < b.capacity then
    { b with buffer := buffer, head := head, size := b.size + 1 }
  else
    { b with buffer := buffer, head := head, tail := (b.tail + 1) % b.capacity }

/-- The loop of `getAll()`: read `n` slots starting at `current`, stepping by
`(current + 1) % capacity`. -/
def getAllAux (b : CircularBuffer T) : Nat → Nat → List (Option T)
  | _, 0 => []
  | current, n + 1 => b.buffer current :: b.getAllAux ((current + 1) % b.capacity) n

/-- `getAll()`: the retained items, oldest first. -/
def getAll (b : CircularBuffer T) : List (Option T) :=
  b.getAllAux b.tail b.size

/-- `getSize()`. -/
def getSize (b : CircularBuffer T) : Nat := b.size

/-- `getCapacity()`. -/
def getCapacity (b : CircularBuffer T) : Nat := b.capacity

/-- `clear()`: reset the indices; the backing array is left as-is. -/
def clear (b : CircularBuffer T) : CircularBuffer T :=
  { b with head := 0, tail := 0, size := 0 }

/-- Closed form for the `getAll` loop when the start index is in range. -/
theorem getAllAux_eq (b : CircularBuffer T) (hcap : 0 < b.capacity) :
    ∀ (n cur : Nat), cur < b.capacity →
      b.getAllAux cur n = (List.range n).map (fun i => b.buffer ((cur + i) % b.capacity)) := by
  intro n
  induction n with
  | zero => intro cur _; simp [getAllAux]
  | succ n ih =>
    intro cur hcur
    rw [getAllAux, ih ((cur + 1) % b.capacity) (Nat.mod_lt _ hcap)]
    rw [List.range_succ_eq_map]
    simp only [List.map_cons, List.map_map]
    refine congrArg₂ List.cons ?_ ?_
    · simp [Nat.mod_eq_of_lt hcur]
    · apply List.map_congr_left
      intro i _
      simp only [Function.comp_apply]
      rw [Nat.mod_add_mod]
      have h1 : cur + 1 + i = cur + i.succ := by omega
      rw [h1]

/-- A sequence of `push`es into a freshly constructed buffer of capacity `C`. -/
def pushAll (C : Nat) (xs : List T) : CircularBuffer T :=
  xs.foldl push (empty C)

/-- Representation invariant tying a buffer state to the abstract list `xs` of
all values pushed so far (capacity `C`). -/
def Inv (C : Nat) (xs : List T) (b : CircularBuffer T) : Prop :=
  b.capacity = C ∧
  b.size = min xs.length C ∧
  b.head = xs.length % C ∧
  b.tail = (xs.length - b.size) % C ∧
  ∀ i, i < b.size → b.buffer ((b.tail + i) % C) = xs[xs.length - b.size + i]?

theorem inv_empty (C : Nat) : Inv C ([] : List T) (empty C) := by
  refine ⟨rfl, by simp [empty], by simp [empty], by simp [empty], ?_⟩
  intro i hi
  simp [empty] at hi

theorem mod_sub_self (n C : Nat) (h : C ≤ n) : (n - C) % C = n % C := by
  conv_rhs => rw [← Nat.sub_add_cancel h]
  rw [Nat.add_mod_right]

theorem inv_push (C : Nat) (hC : 0 < C) (xs : List T) (x : T) (b : CircularBuffer T)
    (h : Inv C xs b) : Inv C (xs ++ [x]) (b.push x) := by
  obtain ⟨hcap, hsize, hhead, htail, hcont⟩ := h
  have hLlen : (xs ++ [x]).length = xs.length + 1 := by simp
  by_cases hfull : b.size < b.capacity
  · -- not yet full: `size` grows, `tail` stays
    have hLC : xs.length < C := by
      rcases Nat.lt_or_ge xs.length C with h' | h'
      · exact h'
      · exfalso; rw [hcap, hsize, Nat.min_eq_right h'] at hfull; omega
    have hsz : b.size = xs.length := by rw [hsize, Nat.min_eq_left (Nat.le_of_lt hLC)]
    have htl : b.tail = 0 := by rw [htail, hsz, Nat.sub_self, Nat.zero_mod]
    have hhd : b.head = xs.length := by rw [hhead, Nat.mod_eq_of_lt hLC]
    rw [push, if_pos hfull]
    refine ⟨hcap, ?_, ?_, ?_, ?_⟩
    · simp only [hLlen, hsz]
      rw [Nat.min_eq_left (by omega)]
    · simp only [hhead, hLlen]
      rw [hcap, Nat.mod_add_mod]
    · simp only [hLlen, hsz, htl]
      rw [Nat.sub_self, Nat.zero_mod]
    · intro i hi
      simp only [hsz] at hi
      simp only [htl, hLlen, hsz, Nat.zero_add]
      rw [Nat.mod_eq_of_lt (by omega : i < C)]
      have hidx : xs.length + 1 - (xs.length + 1) + i = i := by omega
      rw [hidx]
      by_cases hix : i = xs.length
      · subst hix
        rw [hhd, if_pos rfl]
        exact (List.getElem?_concat_length xs x).symm
      · have hiL : i < xs.length := by omega
        rw [if_neg (by omega : ¬ i = b.head)]
        have := hcont i (by omega)
        rw [htl, Nat.zero_add, Nat.mod_eq_of_lt (by omega : i < C), hsz,
          Nat.sub_self, Nat.zero_add] at this
        rw [this, List.getElem?_append_left hiL]
  · -- full: `size` stays at `C`, `tail` advances (oldest evicted)
    have hsz : b.size = C := by
      rw [hsize]
      rcases Nat.lt_or_ge xs.length C with h' | h'
      · exfalso; rw [hcap, hsize, Nat.min_eq_left (Nat.le_of_lt h')] at hfull; omega
      · exact Nat.min_eq_right h'
    have hCL : C ≤ xs.length := by
      rcases Nat.lt_or_ge xs.length C with h' | h'
      · exfalso; rw [hsize, Nat.min_eq_left (Nat.le_of_lt h')] at hsz; omega
      · exact h'
    have htl : b.tail = xs.length % C := by
      rw [htail, hsz]
      conv_rhs => rw [← Nat.sub_add_cancel hCL]
      rw [Nat.add_mod_right]
    rw [push, if_neg hfull]
    refine ⟨hcap, ?_, ?_, ?_, ?_⟩
    · simp only [hLlen, hsz]
      rw [Nat.min_eq_right (by omega)]
    · simp only [hhead, hLlen]
      rw [hcap, Nat.mod_add_mod]
    · simp only [htl, hLlen, hsz, hcap]
      rw [Nat.mod_add_mod, mod_sub_self (xs.length + 1) C (by omega)]
    · intro i hi
      simp only [hsz] at hi
      simp only [htl, hcap, hLlen, hsz]
      rw [Nat.mod_add_mod]
      by_cases hix : i = C - 1
      · -- the slot written by this push: the new last element
        have hmod : (xs.length % C + 1 + i) % C = b.head := by
          rw [hhead, hix]
          have h1 : xs.length % C + 1 + (C - 1) = xs.length % C + C := by omega
          rw [h1, Nat.add_mod_right]
          exact Nat.mod_eq_of_lt (Nat.mod_lt _ hC)
        rw [hmod, if_pos rfl]
        have hidx : xs.length + 1 - C + i = xs.length := by omega
        rw [hidx]
        exact (List.getElem?_concat_length xs x).symm
      · -- a surviving slot: same value as before the push
        have hiC : i + 1 < C := by omega
        have hmod : (xs.length % C + 1 + i) % C = (b.tail + (i + 1)) % C := by
          rw [htl, Nat.add_assoc, Nat.mod_add_mod, Nat.mod_add_mod, Nat.add_comm 1 i]
        have hne : (xs.length % C + 1 + i) % C ≠ b.head := by
          intro heq
          rw [hhead] at heq
          have h1 : (xs.length + (1 + i)) % C = xs.length % C := by
            rw [← heq, Nat.add_assoc, Nat.mod_add_mod]
          have h2 : C ∣ xs.length + (1 + i) - xs.length :=
            (Nat.modEq_iff_dvd' (by omega)).mp h1.symm
          rw [Nat.add_sub_cancel_left] at h2
          have := Nat.le_of_dvd (by omega) h2
          omega
        rw [if_neg hne, hmod]
        have hc := hcont (i + 1) (by omega)
        rw [hsz] at hc
        rw [hc]
        have hidx : xs.length - C + (i + 1) = xs.length + 1 - C + i := by omega
        rw [hidx, List.getElem?_append_left (by omega : xs.length + 1 - C + i < xs.length)]

theorem inv_pushAll (C : Nat) (hC : 0 < C) (xs : List T) : Inv C xs (pushAll C xs) := by
  induction xs using List.reverseRecOn with
  | nil => exact inv_empty C
  | append_singleton xs x ih =>
      have : pushAll C (xs ++ [x]) = (pushAll C xs).push x := by
        simp [pushAll, List.foldl_append]
      rw [this]
      exact inv_push C hC xs x (pushAll C xs) ih

theorem range_map_getElem? (l : List T) :
    (List.range l.length).map (fun i => l[i]?) = l.map some := by
  induction l with
  | nil => simp
  | cons a l ih =>
      rw [List.length_cons, List.range_succ_eq_map]
      simp only [List.map_cons, List.map_map, List.getElem?_cons_zero, List.map_cons]
      refine congrArg₂ List.cons rfl ?_
      rw [← ih]
      apply List.map_congr_left
      intro i _
      simp

/-- What `getAll` returns in any state satisfying the invariant: the last
`min N C` pushed values, oldest first. -/
theorem getAll_of_inv (C : Nat) (hC : 0 < C) (xs : List T) (b : CircularBuffer T)
    (h : Inv C xs b) : b.getAll = (xs.drop (xs.length - C)).map some := by
  obtain ⟨hcap, hsize, hhead, htail, hcont⟩ := h
  have htlt : b.tail < b.capacity := by
    rw [htail, hcap]; exact Nat.mod_lt _ hC
  have hdrop : xs.length - b.size = xs.length - C := by
    rw [hsize]
    rcases Nat.lt_or_ge xs.length C with h' | h'
    · rw [Nat.min_eq_left (Nat.le_of_lt h')]; omega
    · rw [Nat.min_eq_right h']
  rw [getAll, getAllAux_eq b (by omega : 0 < b.capacity) b.size b.tail htlt]
  have hlen : (xs.drop (xs.length - C)).length = b.size := by
    rw [List.length_drop, hsize]
    omega
  rw [← range_map_getElem? (xs.drop (xs.length - C)), hlen]
  apply List.map_congr_left
  intro i hi
  rw [List.mem_range] at hi
  rw [hcap, hcont i hi, List.getElem?_drop, hdrop]

end CircularBuffer

open CircularBuffer in
/-- C1: for every capacity `C ≥ 1` and every sequence `xs` of pushes into a
fresh buffer of capacity `C`, `getAll()` has length `min N C` and returns
exactly the last `min N C` pushed values, oldest first (`some`-wrapped, since
the model's array slots are `Option`-valued); and pushing one more value past
capacity evicts exactly the oldest retained entry, keeping the survivors'
relative order and appending the new value. -/
theorem circularBuffer_pushSeq_getAll {T : Type} (C : Nat) (hC : 1 ≤ C)
    (xs : List T) (x : T) :
    (getAll (pushAll C xs)).length = min xs.length C ∧
    getAll (pushAll C xs) = (xs.drop (xs.length - C)).map some ∧
    (C ≤ xs.length →
      getAll ((pushAll C xs).push x) = (getAll (pushAll C xs)).drop 1 ++ [some x]) := by
  have hinv := inv_pushAll C hC xs
  have hmain := getAll_of_inv C hC xs (pushAll C xs) hinv
  refine ⟨?_, hmain, ?_⟩
  · rw [hmain]
    simp only [List.length_map, List.length_drop]
    omega
  · intro hCL
    have hpush : (pushAll C xs).push x = pushAll C (xs ++ [x]) := by
      simp [pushAll, List.foldl_append]
    rw [hpush, getAll_of_inv C hC (xs ++ [x]) (pushAll C (xs ++ [x]))
      (inv_pushAll C hC (xs ++ [x])), hmain]
    have hidx : (xs ++ [x]).length - C = xs.length + 1 - C := by simp
    rw [hidx, List.drop_append_of_le_length (by omega : xs.length + 1 - C ≤ xs.length),
      List.map_append]
    refine congrArg₂ (· ++ ·) ?_ rfl
    rw [← List.map_drop, List.drop_drop]
    have h3 : xs.length + 1 - C = xs.length - C + 1 := by omega
    rw [h3]

/-- Concrete instantiation of `circularBuffer_pushSeq_getAll`: capacity 2,
pushes `[1, 2, 3]`, then one more push `4`. -/
theorem circularBuffer_pushSeq_getAll_witness :
    1 ≤ 2 ∧
    ((CircularBuffer.getAll (CircularBuffer.pushAll 2 [1, 2, 3])).length
        = min ([1, 2, 3] : List Nat).length 2 ∧
      CircularBuffer.getAll (CircularBuffer.pushAll 2 [1, 2, 3])
        = (([1, 2, 3] : List Nat).drop ([1, 2, 3].length - 2)).map some ∧
      (2 ≤ ([1, 2, 3] : List Nat).length →
        CircularBuffer.getAll ((CircularBuffer.pushAll 2 [1, 2, 3]).push 4)
          = (CircularBuffer.getAll (CircularBuffer.pushAll 2 [1, 2, 3])).drop 1
            ++ [some 4])) :=
  ⟨by decide, circularBuffer_pushSeq_getAll 2 (by decide) [1, 2, 3] 4⟩

open CircularBuffer in
/-- C4 counterexample: constructing a buffer with capacity 0 is *not*
rejected — `new CircularBuffer<T>(0)` runs to completion (`new Array<T>(0)` is
a legal empty array), yielding a store with capacity 0. -/
theorem circularBuffer_create_zero_accepted :
    (create 0 : Except String (CircularBuffer Nat)) = .ok (empty 0) := rfl

open CircularBuffer in
/-- C4 (amended): the constructor performs no validation of its own;
construction fails exactly for negative capacities, and only because the
backing-array allocation (`new Array<T>(capacity)`) throws a `RangeError`
there.  A capacity of 0 is accepted. -/
theorem circularBuffer_create_ok_iff (c : Int) :
    (∃ b : CircularBuffer Nat, create c = .ok b) ↔ 0 ≤ c := by
  unfold create
  by_cases h : c < 0
  · rw [if_pos h]
    constructor
    · rintro ⟨b, hb⟩
      exact absurd hb (by simp)
    · intro h2; omega
  · rw [if_neg h]
    constructor
    · intro _; omega
    · intro _; exact ⟨empty c.toNat, rfl⟩

/-!
## Command Runner (src/utils/command-runner.ts)

The runner is a state machine driven by: its own methods (`start`, `stop`,
`write`), and the two pty callbacks registered in `start` (`onData`,
`onExit`).  Effects are explicit:

* results of external pty calls (`pty.spawn`, `process.write`) are passed in
  as `Except` values — `.error e` models the call throwing `e`;
* `Date.now()` is passed in as a timestamp argument;
* every `this.emit(...)` appends to the `events` trace;
* every successful-path `this.process.write(data)` invocation appends `data`
  to `ptyWrites`; every `this.process.kill()` increments `kills`.
-/

/-- `LogEntry` (type field: `'stdout' | 'stderr' | 'system'`). -/
inductive LogType
  | stdout
  | stderr
  | system
deriving DecidableEq, Repr

/-- `LogEntry`: timestamp, content, type. -/
structure LogEntry where
  timestamp : Nat
  content : String
  type : LogType
deriving DecidableEq, Repr

/-- `ProcessStatus` enumeration. -/
inductive ProcessStatus
  | RUNNING
  | STOPPED
  | ERROR
deriving DecidableEq, Repr

/-- The events a `CommandRunner` emits (`log`, `exit`, `error`,
`statusChange`).  `exit` carries the exit code and the optional signal. -/
inductive RunnerEvent
  | log (entry : LogEntry)
  | exit (code : Int) (signal : Option Nat)
  | error (msg : String)
  | statusChange (status : ProcessStatus)
deriving DecidableEq, Repr

/-- The observable state of a `CommandRunner`: its fields (`process`,
`logBuffer`, `status`, `command`, `args`) plus the explicit effect traces
(`events`, `ptyWrites`, `kills`).  The pty handle is an opaque id. -/
structure RunnerState where
  process : Option Nat
  logBuffer : CircularBuffer LogEntry
  status : ProcessStatus
  events : List RunnerEvent
  ptyWrites : List String
  kills : Nat
  command : String
  args : List String

namespace RunnerState

/-- `logBufferSize || 300`: a missing *or zero* (falsy) option falls back to
the default 300. -/
def effectiveLogBufferSize (logBufferSize : Option Nat) : Nat :=
  match logBufferSize with
  | none => 300
  | some n => if n = 0 then 300 else n

/-- The state after `new CommandRunner(options)` (command parsing into
`command`/`args` is modelled separately, see `parseCommand` below): no
process, empty buffer of the effective capacity, status `STOPPED`, nothing
emitted yet. -/
def mkRunner (command : String) (args : List String) (logBufferSize : Option Nat) :
    RunnerState :=
  { process := none
    logBuffer := CircularBuffer.empty (effectiveLogBufferSize logBufferSize)
    status := .STOPPED
    events := []
    ptyWrites := []
    kills := 0
    command := command
    args := args }

/-- `this.emit(event, ...)`. -/
def emit (s : RunnerState) (ev : RunnerEvent) : RunnerState :=
  { s with events := s.events ++ [ev] }

/-- `addLogEntry(content, type)`: build the entry, push it into the buffer,
then emit a `log` event carrying it. -/
def addLogEntry (s : RunnerState) (timestamp : Nat) (content : String)
    (type : LogType) : RunnerState :=
  let entry : LogEntry := { timestamp := timestamp, content := content, type := type }
  emit { s with logBuffer := s.logBuffer.push entry } (.log entry)

/-- `setStatus(status)`: mutate the field, then emit `statusChange`. -/
def setStatus (s : RunnerState) (status : ProcessStatus) : RunnerState :=
  emit { s with status := status } (.statusChange status)

/-- The string interpolation `${signal || 'none'}` of the exit handler:
`undefined` and the falsy signal `0` both print as `none`. -/
def signalText (signal : Option Nat) : String :=
  match signal with
  | none => "none"
  | some n => if n = 0 then "none" else toString n

/-- `start()`: log the start announcement, then attempt `pty.spawn`.
`spawnResult` is the outcome of that external call: `.ok p` gives the handle,
`.error e` models `pty.spawn` throwing `e` (caught by the surrounding
`try`/`catch`).  On success the handle is stored and status becomes
`RUNNING`; the registered `onData`/`onExit` callbacks are modelled by
`handleData`/`handleExit` below.  On failure: status `ERROR`, an error log
entry, and an `error` event — in that order. -/
def start (s : RunnerState) (now : Nat) (spawnResult : Except String Nat) :
    RunnerState :=
  let s1 := addLogEntry s now
    ("Starting command: " ++ s.command ++ " " ++ String.intercalate " " s.args) .system
  match spawnResult with
  | .ok p =>
      setStatus { s1 with process := some p } .RUNNING
  | .error e =>
      let s2 := setStatus s1 .ERROR
      let s3 := addLogEntry s2 now ("Error starting command: " ++ e) .system
      emit s3 (.error e)

/-- The `onData` callback registered in `start`: append the chunk as a
`stdout` entry. -/
def handleData (s : RunnerState) (now : Nat) (data : String) : RunnerState :=
  addLogEntry s now data .stdout

/-- The `onExit` callback registered in `start`: summary `system` entry,
status `STOPPED`, `exit` event with code and signal, then release the
process handle. -/
def handleExit (s : RunnerState) (now : Nat) (exitCode : Int)
    (signal : Option Nat) : RunnerState :=
  let s1 := addLogEntry s now
    ("Process exited with code " ++ toString exitCode ++ " and signal "
      ++ signalText signal) .system
  let s2 := setStatus s1 .STOPPED
  let s3 := emit s2 (.exit exitCode signal)
  { s3 with process := none }

/-- `stop()`: only if a process handle is held and status is `RUNNING`, log
and send the kill signal; otherwise do nothing at all. -/
def stop (s : RunnerState) (now : Nat) : RunnerState :=
  if s.process.isSome ∧ s.status = .RUNNING then
    let s1 := addLogEntry s now "Stopping command..." .system
    { s1 with kills := s1.kills + 1 }
  else
    s

/-- A minimal model of `JSON.stringify` on a string (quote and escape); the
claims settled here do not depend on its exact escaping rules. -/
def jsonStringify (s : String) : String :=
  "\"" ++ String.join (s.toList.map (fun c =>
    if c = '"' then "\\\"" else if c = '\\' then "\\\\" else String.singleton c)) ++ "\""

/-- `write(data)`: if a handle is held and status is `RUNNING`, log the
attempt, invoke `this.process.write(data)` (recorded in `ptyWrites`;
`writeResult` is that call's outcome), and log success or the caught
failure.  Otherwise only log the rejection.  Nothing is ever thrown. -/
def write (s : RunnerState) (now : Nat) (data : String)
    (writeResult : Except String Unit) : RunnerState :=
  if s.process.isSome ∧ s.status = .RUNNING then
    let s1 := addLogEntry s now ("Attempting to write key: " ++ jsonStringify data) .system
    let s2 := { s1 with ptyWrites := s1.ptyWrites ++ [data] }
    match writeResult with
    | .ok _ => addLogEntry s2 now "Successfully wrote key" .system
    | .error e => addLogEntry s2 now ("Failed to write key: " ++ e) .system
  else
    addLogEntry s now "Cannot write to process: not running" .system

/-- `getLogs()`. -/
def getLogs (s : RunnerState) : List (Option LogEntry) :=
  s.logBuffer.getAll

/-- `getStatus()`. -/
def getStatus (s : RunnerState) : ProcessStatus :=
  s.status

end RunnerState

namespace CircularBuffer

variable {T : Type}

/-- Well-formedness of a buffer state: positive capacity, in-range indices,
and `head` sitting one past the newest retained slot.  Holds for every state
reachable from a nonempty-capacity constructor by `push`/`clear`. -/
def WF (b : CircularBuffer T) : Prop :=
  0 < b.capacity ∧ b.size ≤ b.capacity ∧ b.tail < b.capacity ∧
    b.head = (b.tail + b.size) % b.capacity

theorem wf_empty (C : Nat) (hC : 0 < C) : WF (empty C : CircularBuffer T) := by
  refine ⟨hC, by simp [empty], by simpa [empty] using hC, ?_⟩
  simp [empty]

theorem WF.push {b : CircularBuffer T} (h : WF b) (x : T) : WF (b.push x) := by
  obtain ⟨hcap, hsz, htl, hhd⟩ := h
  by_cases hfull : b.size < b.capacity
  · rw [CircularBuffer.push, if_pos hfull]
    refine ⟨hcap, by show b.size + 1 ≤ b.capacity; omega, htl, ?_⟩
    simp only
    rw [hhd, Nat.mod_add_mod, Nat.add_assoc]
  · have hsize : b.size = b.capacity := by omega
    rw [CircularBuffer.push, if_neg hfull]
    refine ⟨hcap, hsz, Nat.mod_lt _ hcap, ?_⟩
    simp only
    rw [hhd, hsize, Nat.mod_add_mod, Nat.mod_add_mod]
    conv_lhs => rw [Nat.add_comm b.tail b.capacity, Nat.add_assoc, Nat.add_mod_left]
    rw [Nat.add_mod_right]

/-- In a well-formed buffer, a freshly pushed element is retained: it is the
last element `getAll` returns. -/
theorem mem_getAll_push {b : CircularBuffer T} (h : WF b) (x : T) :
    some x ∈ (b.push x).getAll := by
  obtain ⟨hcap, hsz, htl, hhd⟩ := h
  have hWF' := WF.push ⟨hcap, hsz, htl, hhd⟩ x
  obtain ⟨hcap', hsz', htl', hhd'⟩ := hWF'
  rw [getAll, getAllAux_eq _ hcap' _ _ htl']
  have hszpos : 0 < (b.push x).size := by
    rw [CircularBuffer.push]
    by_cases hfull : b.size < b.capacity
    · rw [if_pos hfull]; simp
    · rw [if_neg hfull]; simp only; omega
  have hmem : (b.push x).size - 1 ∈ List.range (b.push x).size := by
    rw [List.mem_range]; omega
  have hval : (b.push x).buffer (((b.push x).tail + ((b.push x).size - 1)) % (b.push x).capacity)
      = some x := by
    have hpos : ((b.push x).tail + ((b.push x).size - 1)) % (b.push x).capacity = b.head := by
      rw [CircularBuffer.push]
      by_cases hfull : b.size < b.capacity
      · rw [if_pos hfull]
        simp only [Nat.add_sub_cancel]
        rw [hhd]
      · have hsize : b.size = b.capacity := by omega
        rw [if_neg hfull]
        simp only
        rw [Nat.mod_add_mod, hhd, hsize]
        congr 1
        omega
    rw [hpos]
    have hbuf : (b.push x).buffer b.head = some x := by
      rw [CircularBuffer.push]
      by_cases hfull : b.size < b.capacity
      · rw [if_pos hfull]; simp
      · rw [if_neg hfull]; simp
    exact hbuf
  rw [← hval]
  exact List.mem_map_of_mem _ hmem

end CircularBuffer

namespace RunnerState

/-- C2: after a successful `start()` the status is `RUNNING`, that start
emitted exactly one `statusChange RUNNING` (after the start-announcement
`log` event); when the process then exits, the exit handler records a final
`system` log entry, transitions to `STOPPED`, emits an `exit` event carrying
the code and signal, and nulls the process handle. -/
theorem runner_start_success_exit (s : RunnerState) (p t1 t2 : Nat) (code : Int)
    (sig : Option Nat) :
    let startEntry : LogEntry :=
      { timestamp := t1
        content := "Starting command: " ++ s.command ++ " " ++ String.intercalate " " s.args
        type := .system }
    let exitEntry : LogEntry :=
      { timestamp := t2
        content := "Process exited with code " ++ toString code ++ " and signal "
          ++ signalText sig
        type := .system }
    let s1 := s.start t1 (.ok p)
    let s2 := s1.handleExit t2 code sig
    s1.status = .RUNNING ∧
    s1.process = some p ∧
    s1.events = s.events ++ [.log startEntry, .statusChange .RUNNING] ∧
    (s1.events.drop s.events.length).count (RunnerEvent.statusChange .RUNNING) = 1 ∧
    s2.status = .STOPPED ∧
    s2.events = s1.events ++ [.log exitEntry, .statusChange .STOPPED, .exit code sig] ∧
    s2.logBuffer = s1.logBuffer.push exitEntry ∧
    exitEntry.type = .system ∧
    s2.process = none := by
  refine ⟨rfl, rfl, ?_, ?_, rfl, ?_, rfl, rfl, rfl⟩
  · simp [start, addLogEntry, emit, setStatus]
  · simp [start, addLogEntry, emit, setStatus, List.drop_left]
  · simp [start, handleExit, addLogEntry, emit, setStatus]

/-- C3: if `pty.spawn` throws, `start()` leaves the runner in status `ERROR`,
emits an `error` event carrying the thrown error, and `getLogs()` contains a
`system` entry mentioning that error; exactly one spawn was attempted (the
events show a single start announcement — nothing is retried). -/
theorem runner_start_spawn_failure (s : RunnerState) (t : Nat) (e : String)
    (hWF : s.logBuffer.WF) :
    let startEntry : LogEntry :=
      { timestamp := t
        content := "Starting command: " ++ s.command ++ " " ++ String.intercalate " " s.args
        type := .system }
    let errEntry : LogEntry :=
      { timestamp := t, content := "Error starting command: " ++ e, type := .system }
    let s' := s.start t (.error e)
    s'.status = .ERROR ∧
    s'.events = s.events
      ++ [.log startEntry, .statusChange .ERROR, .log errEntry, .error e] ∧
    RunnerEvent.error e ∈ s'.events ∧
    some errEntry ∈ s'.getLogs ∧
    errEntry.type = .system ∧
    s'.process = s.process := by
  refine ⟨rfl, ?_, ?_, ?_, rfl, rfl⟩
  · simp [start, addLogEntry, emit, setStatus]
  · simp [start, addLogEntry, emit, setStatus]
  · show some _ ∈ ((s.logBuffer.push _).push _).getAll
    exact CircularBuffer.mem_getAll_push (hWF.push _) _

/-- C3 witness: a freshly constructed runner whose spawn throws. -/
theorem runner_start_spawn_failure_witness :
    (mkRunner "definitely-not-a-command" [] none).logBuffer.WF ∧
    ((mkRunner "definitely-not-a-command" [] none).start 5 (.error "Error: spawn failed")).status
      = .ERROR := by
  have hWF : (mkRunner "definitely-not-a-command" [] none).logBuffer.WF :=
    ⟨by decide, by decide, by decide, by decide⟩
  exact ⟨hWF,
    (runner_start_spawn_failure (mkRunner "definitely-not-a-command" [] none)
      5 "Error: spawn failed" hWF).1⟩

/-- C5: `write(data)` while the status is not `RUNNING` never reaches the
process (`ptyWrites` unchanged), never throws (the model is a total
function), leaves status, handle and kill count unchanged, and appends
exactly one new `system` log entry recording the rejection. -/
theorem runner_write_not_running (s : RunnerState) (t : Nat) (data : String)
    (res : Except String Unit) (h : s.status ≠ .RUNNING) :
    let rejEntry : LogEntry :=
      { timestamp := t, content := "Cannot write to process: not running", type := .system }
    let s' := s.write t data res
    s'.ptyWrites = s.ptyWrites ∧
    s'.status = s.status ∧
    s'.process = s.process ∧
    s'.kills = s.kills ∧
    s'.events = s.events ++ [.log rejEntry] ∧
    rejEntry.type = .system ∧
    s'.logBuffer = s.logBuffer.push rejEntry := by
  have hcond : ¬(s.process.isSome ∧ s.status = .RUNNING) := fun hc => h hc.2
  refine ⟨?_, ?_, ?_, ?_, ?_, rfl, ?_⟩ <;>
    simp [write, hcond, addLogEntry, emit]

/-- C5 witness: a freshly constructed (hence `STOPPED`) runner. -/
theorem runner_write_not_running_witness :
    (mkRunner "cat" [] none).status ≠ .RUNNING ∧
    ((mkRunner "cat" [] none).write 7 "q" (.ok ())).ptyWrites
      = (mkRunner "cat" [] none).ptyWrites := by
  have h : (mkRunner "cat" [] none).status ≠ .RUNNING := by decide
  exact ⟨h, (runner_write_not_running (mkRunner "cat" [] none) 7 "q" (.ok ()) h).1⟩

/-- C6: when the runner is `RUNNING` with a live handle and the pty write
throws, the failure is caught: status, handle and kill count are unchanged,
no exception escapes (the model is total), and the only effects are the
attempt log entry followed by a `system` entry recording the failure. -/
theorem runner_write_failure_caught (s : RunnerState) (t : Nat) (data e : String)
    (hp : s.process.isSome) (hs : s.status = .RUNNING) :
    let attemptEntry : LogEntry :=
      { timestamp := t, content := "Attempting to write key: " ++ jsonStringify data
        type := .system }
    let failEntry : LogEntry :=
      { timestamp := t, content := "Failed to write key: " ++ e, type := .system }
    let s' := s.write t data (.error e)
    s'.status = s.status ∧
    s'.process = s.process ∧
    s'.kills = s.kills ∧
    s'.ptyWrites = s.ptyWrites ++ [data] ∧
    s'.events = s.events ++ [.log attemptEntry, .log failEntry] ∧
    failEntry.type = .system ∧
    s'.logBuffer = (s.logBuffer.push attemptEntry).push failEntry := by
  refine ⟨?_, ?_, ?_, ?_, ?_, rfl, ?_⟩ <;>
    simp [write, hp, hs, addLogEntry, emit]

/-- C6 witness: a running runner with handle `1` whose pty write throws. -/
theorem runner_write_failure_caught_witness :
    (⟨some 1, CircularBuffer.empty 3, .RUNNING, [], [], 0, "cat", []⟩ :
        RunnerState).process.isSome
      = true ∧
    (⟨some 1, CircularBuffer.empty 3, .RUNNING, [], [], 0, "cat", []⟩ :
        RunnerState).status = .RUNNING ∧
    ((⟨some 1, CircularBuffer.empty 3, .RUNNING, [], [], 0, "cat", []⟩ :
        RunnerState).write 9 "x" (.error "Write error")).status = .RUNNING := by
  refine ⟨rfl, rfl, ?_⟩
  exact (runner_write_failure_caught
    ⟨some 1, CircularBuffer.empty 3, .RUNNING, [], [], 0, "cat", []⟩
    9 "x" "Write error" rfl rfl).1

/-- C7: `stop()` while `STOPPED` (or with no owned handle) is a complete
no-op: the state — logs, status, events, kill count — is returned unchanged,
and no termination signal is sent. -/
theorem runner_stop_noop (s : RunnerState) (t : Nat)
    (h : s.status = .STOPPED ∨ s.process = none) :
    s.stop t = s := by
  have hcond : ¬(s.process.isSome ∧ s.status = .RUNNING) := by
    rintro ⟨h1, h2⟩
    rcases h with h' | h'
    · rw [h2] at h'; exact ProcessStatus.noConfusion h'
    · rw [h'] at h1; exact Bool.noConfusion h1
  rw [stop, if_neg hcond]

/-- C7 witness: a fresh (`STOPPED`) runner. -/
theorem runner_stop_noop_witness :
    ((mkRunner "cat" [] none).status = .STOPPED ∨ (mkRunner "cat" [] none).process = none) ∧
    (mkRunner "cat" [] none).stop 3 = mkRunner "cat" [] none :=
  ⟨Or.inl rfl, runner_stop_noop (mkRunner "cat" [] none) 3 (Or.inl rfl)⟩

/-- C10: an explicit `logBufferSize` of 0 is falsy, so `options.logBufferSize
|| 300` falls back to the default: the buffer capacity is 300, and the
constructed state is identical to the one built with the option omitted. -/
theorem runner_logBufferSize_zero_default (command : String) (args : List String) :
    (mkRunner command args (some 0)).logBuffer.capacity = 300 ∧
    mkRunner command args (some 0) = mkRunner command args none :=
  ⟨rfl, rfl⟩

end RunnerState

/-!
## Command-string parsing (`CommandRunner` constructor)

`const parts = options.command.split(' '); this.command = parts[0];
this.args = parts.slice(1).concat(options.args || [])`.  Strings are
modelled as `List Char`.
-/

/-- JS `string.split(sep)` for a single-character separator: splits at every
occurrence of `sep`, keeping empty pieces; always returns at least one
piece. -/
def jsSplit (sep : Char) : List Char → List (List Char)
  | [] => [[]]
  | c :: rest =>
    match jsSplit sep rest with
    | [] => [[]]
    | t :: ts => if c = sep then [] :: t :: ts else (c :: t) :: ts

/-- The constructor's parsing: split the command on the space character;
the first piece is the executable, the rest (plus the explicit extra
arguments) are the spawn arguments. -/
def parseCommand (command : List Char) (extraArgs : List (List Char)) :
    List Char × List (List Char) :=
  let parts := jsSplit ' ' command
  (parts.headD [], parts.tail ++ extraArgs)

/-- Splitting on every character satisfying `p`, keeping empty pieces. -/
def splitOnPred (p : Char → Bool) : List Char → List (List Char)
  | [] => [[]]
  | c :: rest =>
    match splitOnPred p rest with
    | [] => [[]]
    | t :: ts => if p c then [] :: t :: ts else (c :: t) :: ts

/-- Modelled from the spec: "argument parsing splits the command string on
whitespace" — the (nonempty) whitespace-delimited tokens of the command. -/
def specWhitespaceTokens (command : List Char) : List (List Char) :=
  (splitOnPred (fun c => c.isWhitespace) command).filter (fun t => ¬ t = [])

/-- Modelled from the spec: parsing by whitespace-splitting — first token is
the executable, remaining tokens plus the extra arguments are the spawn
arguments. -/
def specParseCommand (command : List Char) (extraArgs : List (List Char)) :
    List Char × List (List Char) :=
  let tokens := specWhitespaceTokens command
  (tokens.headD [], tokens.tail ++ extraArgs)

/-- Joining tokens with single spaces (the concatenation a space-separated
command string is made of). -/
def joinSpaces : List (List Char) → List Char
  | [] => []
  | [t] => t
  | t :: ts => t ++ ' ' :: joinSpaces ts

theorem jsSplit_ne_nil (sep : Char) (l : List Char) : jsSplit sep l ≠ [] := by
  cases l with
  | nil => simp [jsSplit]
  | cons c rest =>
    rw [jsSplit]
    cases h : jsSplit sep rest with
    | nil => simp
    | cons t ts =>
      by_cases hc : c = sep
      · simp [hc]
      · simp [hc]

theorem jsSplit_no_sep (sep : Char) (t : List Char) (h : sep ∉ t) :
    jsSplit sep t = [t] := by
  induction t with
  | nil => rfl
  | cons c rest ih =>
    have hc : ¬ c = sep := fun hc => h (hc ▸ List.mem_cons_self c rest)
    have hrest : sep ∉ rest := fun hm => h (List.mem_cons_of_mem c hm)
    rw [jsSplit, ih hrest]
    simp [hc]

theorem jsSplit_append_sep (sep : Char) (t rest : List Char) (h : sep ∉ t) :
    jsSplit sep (t ++ sep :: rest) = t :: jsSplit sep rest := by
  induction t with
  | nil =>
    rw [List.nil_append, jsSplit]
    cases hr : jsSplit sep rest with
    | nil => exact absurd hr (jsSplit_ne_nil sep rest)
    | cons u us => simp
  | cons c t ih =>
    have hc : ¬ c = sep := fun hc => h (hc ▸ List.mem_cons_self c t)
    have ht : sep ∉ t := fun hm => h (List.mem_cons_of_mem c hm)
    rw [List.cons_append, jsSplit, ih ht]
    simp [hc]

theorem jsSplit_joinSpaces (tokens : List (List Char)) (hne : tokens ≠ [])
    (h : ∀ t ∈ tokens, ' ' ∉ t) :
    jsSplit ' ' (joinSpaces tokens) = tokens := by
  induction tokens with
  | nil => exact absurd rfl hne
  | cons t ts ih =>
    cases ts with
    | nil =>
      rw [joinSpaces, jsSplit_no_sep ' ' t (h t (List.mem_cons_self t []))]
    | cons t' ts' =>
      rw [joinSpaces, jsSplit_append_sep ' ' t (joinSpaces (t' :: ts'))
        (h t (List.mem_cons_self t (t' :: ts')))]
      · rw [ih (List.cons_ne_nil t' ts') (fun u hu => h u (List.mem_cons_of_mem t hu))]
      · exact List.cons_ne_nil t' ts'

/-- C8 counterexample: the command string is split on the space character
only, not on whitespace.  On `"echo\thi"` (a tab separator) the code keeps
the whole string as the executable, while the claimed whitespace-splitting
would make `"echo"` the executable; the two parses disagree. -/
theorem parseCommand_tab_not_split :
    parseCommand ("echo\thi".toList) [] = ("echo\thi".toList, []) ∧
    specParseCommand ("echo\thi".toList) [] = ("echo".toList, ["hi".toList]) ∧
    parseCommand ("echo\thi".toList) [] ≠ specParseCommand ("echo\thi".toList) [] := by
  refine ⟨by decide, by decide, by decide⟩

/-- C8 (amended): parsing splits the command string on *single space
characters* (not general whitespace): for any command string consisting of
space-free tokens separated by single spaces, the first token becomes the
executable and the spawn argument list is the remaining tokens followed by
the explicit extra arguments, in order.  No shell-quoting interpretation
happens: quote characters are ordinary token characters (e.g. the command
`echo "Hello, MCP!"` yields the literal arguments `"Hello,` and `MCP!"`). -/
theorem parseCommand_space_separated (tokens : List (List Char))
    (extra : List (List Char)) (hne : tokens ≠ []) (h : ∀ t ∈ tokens, ' ' ∉ t) :
    parseCommand (joinSpaces tokens) extra = (tokens.headD [], tokens.tail ++ extra) ∧
    parseCommand ("echo \"Hello, MCP!\"".toList) []
      = ("echo".toList, ["\"Hello,".toList, "MCP!\"".toList]) := by
  constructor
  · rw [parseCommand]
    simp only [jsSplit_joinSpaces tokens hne h]
  · decide

/-- C8 witness: tokens `["echo", "hi"]` with one extra argument. -/
theorem parseCommand_space_separated_witness :
    (["echo".toList, "hi".toList] ≠ ([] : List (List Char)) ∧
      (∀ t ∈ ["echo".toList, "hi".toList], ' ' ∉ t)) ∧
    parseCommand (joinSpaces ["echo".toList, "hi".toList]) ["-n".toList]
      = (["echo".toList, "hi".toList].headD [],
        ["echo".toList, "hi".toList].tail ++ ["-n".toList]) :=
  ⟨⟨by decide, by decide⟩,
    (parseCommand_space_separated ["echo".toList, "hi".toList] ["-n".toList]
      (by decide) (by decide)).1⟩

/-!
## The `sendKeyPress` tool's key-name mapping (src/index.ts)

`const keyMap = { enter: '\r', return: '\r', space: ' ', tab: '\t',
escape: '\x1b', backspace: '\x7f' };
const keyToSend = keyMap[key.toLowerCase()] || key;
commandRunner.write(keyToSend);`  (guarded by a status check that returns an
error without calling `write` when the runner is not `RUNNING`).
-/

/-- The tool's symbolic-key table.  All values are nonempty strings, so the
JS `|| key` fallback fires exactly when the lookup misses. -/
def keyMap : List (String × String) :=
  [("enter", "\r"), ("return", "\r"), ("space", " "), ("tab", "\t"),
   ("escape", "\x1b"), ("backspace", "\x7f")]

/-- JS `key.toLowerCase()`, modelled for ASCII (the table's keys are ASCII
letters, so case only matters there). -/
def toLowerAscii (s : String) : String :=
  ⟨s.data.map (fun c =>
    if 'A' ≤ c ∧ c ≤ 'Z' then Char.ofNat (c.toNat + 32) else c)⟩

/-- `keyMap[key.toLowerCase()] || key`. -/
def mapKey (key : String) : String :=
  match keyMap.lookup (toLowerAscii key) with
  | some v => v
  | none => key

/-- The `sendKeyPress` tool: when the runner is `RUNNING`, the mapped key is
the string passed to `commandRunner.write`; otherwise `write` is never
called (the tool returns an error result instead). -/
def sendKeyPress (status : ProcessStatus) (key : String) : Option String :=
  if status = .RUNNING then some (mapKey key) else none

/-- C9 counterexample: arrow keys are *not* in the tool's key table.  The
symbolic name `"up"` is forwarded to `write` unchanged — it is not mapped to
any control-character sequence (every character of the forwarded string is a
printable ASCII letter). -/
theorem sendKeyPress_arrow_unmapped :
    sendKeyPress .RUNNING "up" = some "up" ∧
    mapKey "up" = "up" ∧
    (∀ c ∈ "up".toList, 31 < c.toNat ∧ c.toNat < 127) := by
  refine ⟨by decide, by decide, by decide⟩

/-- C9 (amended): before calling `write`, the tool maps the symbolic names
`enter`, `return`, `space`, `tab`, `escape` and `backspace`
(case-insensitively) to their control-character equivalents; *any* other
string — arrow-key names included — is passed to `write` unchanged. -/
theorem sendKeyPress_mapping (key : String)
    (h : keyMap.lookup (toLowerAscii key) = none) :
    mapKey "enter" = "\r" ∧ mapKey "return" = "\r" ∧ mapKey "space" = " " ∧
    mapKey "tab" = "\t" ∧ mapKey "escape" = "\x1b" ∧ mapKey "backspace" = "\x7f" ∧
    mapKey "ENTER" = "\r" ∧
    mapKey key = key ∧
    sendKeyPress .RUNNING key = some key ∧
    sendKeyPress .STOPPED key = none := by
  have hmap : mapKey key = key := by rw [mapKey, h]
  exact ⟨by decide, by decide, by decide, by decide, by decide, by decide, by decide,
    hmap, by rw [sendKeyPress, if_pos rfl, hmap], by simp [sendKeyPress]⟩

/-- C9 witness: the arrow-key name `"up"` misses the table. -/
theorem sendKeyPress_mapping_witness :
    keyMap.lookup (toLowerAscii "up") = none ∧ mapKey "up" = "up" :=
  ⟨by decide, (sendKeyPress_mapping "up" (by decide)).2.2.2.2.2.2.2.1⟩

end CommandProxy
